import Mathlib

/-!
Verification of the `DebugPipeline` demonstration notebook
(`doc/debug_pipeline.ipynb`) of scikit-lego.

The notebook defines an `Adder` transformer, builds `DebugPipeline`s over
four `Adder` steps, attaches default / custom / no log callbacks, and runs
a `FeatureUnion` of two such pipelines.  The `DebugPipeline` class itself
lives in `sklego/pipeline.py`, which is not part of the provided material,
so its behaviour is modelled from the specification; the `Adder`
transformer, the demo data and the custom callback are embedded from the
notebook's code cells.

Matrices are embedded as lists of rows of integers (the notebook's data
are numpy float arrays holding small integers, on which float arithmetic
is exact).  Wall-clock elapsed time is abstracted as a function
`Nat → Nat` giving the measured duration of each between-step moment.

For the step-permutation property the program's float64 arithmetic
matters, so IEEE 754 binary64 addition on integer-valued doubles is
modelled exactly by `fladd`: the exact integer sum, correctly rounded to
the binary64 grid with ties to even.  On that model the permutation
invariance fails at `2^53` and holds within the exactly-representable
integer range.
-/

namespace SkLego

/-- A data matrix: a list of rows. -/
abbrev Mat := List (List Int)

/-- `np.zeros((n, m))`: the n×m zero matrix. -/
def zeros (n m : Nat) : Mat :=
  List.replicate n (List.replicate m 0)

/-- numpy's `X.shape` for a 2-d array: (number of rows, number of columns). -/
def shape (X : Mat) : Nat × Nat :=
  (X.length, (X.headD []).length)

/-- numpy's `ndarray.nbytes` for a float64 2-d array: 8 bytes per entry. -/
def nbytes (X : Mat) : Nat := 8 * (shape X).1 * (shape X).2

/-- A pipeline step: a transformer with a display name (its `repr`) and a
`transform` operation that may raise (modelled as `Except`). -/
structure Step where
  name : String
  transform : Mat → Except String Mat

/-- The notebook's `Adder` transformer: holds a fixed `value`. -/
structure Adder where
  value : Int

/-- `Adder.fit(self, X, y=None): return self`. -/
def Adder.fit (a : Adder) (_X : Mat) : Adder := a

/-- `Adder.transform(self, X): return X + self._value` (numpy broadcast:
elementwise addition of the scalar). -/
def Adder.transform (a : Adder) (X : Mat) : Mat :=
  X.map (List.map (fun x => x + a.value))

/-- `Adder.__repr__`: the string `Adder(value=<value>)`. -/
def Adder.repr (a : Adder) : String :=
  "Adder(value=" ++ toString a.value ++ ")"

/-- View an `Adder` as a pipeline `Step`; its transform never raises. -/
def Adder.toStep (a : Adder) : Step :=
  ⟨a.repr, fun X => Except.ok (a.transform X)⟩

/-- The notebook's `steps` list: `add_1`, `add_10`, `add_100`, `add_1000`. -/
def demoSteps : List (String × Step) :=
  [("add_1", (Adder.mk 1).toStep),
   ("add_10", (Adder.mk 10).toStep),
   ("add_100", (Adder.mk 100).toStep),
   ("add_1000", (Adder.mk 1000).toStep)]

/-- A step whose transform always raises, for exercising error propagation. -/
def boomStep : Step := ⟨"Boom", fun _ => Except.error "boom"⟩

/-- Modelled from the spec: the logging-callback selector of
`DebugPipeline` (missing `sklego/pipeline.py`): none, the named default,
or a user-supplied function.  A user-supplied callback receives the pair
(step output, step reference) and the scalar elapsed time and produces the
log line it emits. -/
inductive LogCallback where
  | noCallback : LogCallback
  | defaultCallback : LogCallback
  | custom : ((Mat × Step) → Nat → String) → LogCallback

/-- Modelled from the spec: `default_log_callback` of `sklego/pipeline.py`
(missing from the material): logs the step's display name, the shape of
the intermediate result and the elapsed time, as shown in the notebook's
output `[Adder(value=1)] shape=(3, 5) time=0s`. -/
def default_log_callback (output : Mat × Step) (execution_time : Nat) : String :=
  "[" ++ output.2.name ++ "] shape=(" ++ toString (shape output.1).1 ++ ", "
    ++ toString (shape output.1).2 ++ ") time=" ++ toString execution_time ++ "s"

/-- The notebook's custom `log_callback` function: destructures `output`
into the step result and the step, and logs name, shape, nbytes and
execution time. -/
def log_callback (output : Mat × Step) (execution_time : Nat) : String :=
  "[" ++ output.2.name ++ "] shape=(" ++ toString (shape output.1).1 ++ ", "
    ++ toString (shape output.1).2 ++ ") nbytes=" ++ toString (nbytes output.1)
    ++ " time=" ++ toString execution_time

/-- Apply a callback selector to one between-step event
`((step output, step), elapsed time)`: `none` emits nothing, the others
emit one log line. -/
def LogCallback.apply : LogCallback → ((Mat × Step) × Nat) → Option String
  | LogCallback.noCallback, _ => none
  | LogCallback.defaultCallback, e => some (default_log_callback e.1 e.2)
  | LogCallback.custom f, e => some (f e.1 e.2)

/-- Modelled from the spec: `DebugPipeline` of `sklego/pipeline.py`
(missing from the material): an ordered list of named steps plus an
optional logging-callback selector, mutable after construction. -/
structure DebugPipeline where
  steps : List (String × Step)
  log_callback : LogCallback

/-- Constructing a pipeline without the optional `log_callback` argument
leaves the callback unset. -/
def DebugPipeline.ofSteps (steps : List (String × Step)) : DebugPipeline :=
  ⟨steps, LogCallback.noCallback⟩

/-- Modelled from the spec: the assignment `pipe.log_callback = cb` after
construction (the mutable attribute of the pipeline). -/
def DebugPipeline.setLogCallback (p : DebugPipeline) (cb : LogCallback) : DebugPipeline :=
  DebugPipeline.mk p.steps cb

/-- `fit` of the pipeline: each demonstrated transformer's `fit` returns
itself unchanged, so fitting leaves the pipeline unchanged. -/
def DebugPipeline.fit (p : DebugPipeline) (_X : Mat) : DebugPipeline := p

/-- Run a list of steps in order from index `i`, threading each step's
output into the next and recording for every step the between-step event
`((step output, step), elapsed time)`.  A raising step aborts with its
error. -/
def runSteps (times : Nat → Nat) :
    List Step → Nat → Mat → Except String (List ((Mat × Step) × Nat) × Mat)
  | [], _, X => Except.ok ([], X)
  | s :: rest, i, X => do
      let r ← s.transform X
      let (evs, out) ← runSteps times rest (i + 1) r
      Except.ok (((r, s), times i) :: evs, out)

/-- Sequential application of the steps' transforms, each output fed to
the next step — the wrapped library's pipeline semantics. -/
def chainTransform (ss : List Step) (X : Mat) : Except String Mat :=
  ss.foldlM (fun A s => s.transform A) X

/-- Modelled from the spec: `DebugPipeline.transform` (missing
`sklego/pipeline.py`): applies the steps in order; between consecutive
steps (all moments but the one after the last step) it invokes the
attached callback with the pair (intermediate result, step) and the
elapsed time.  Returns the emitted log lines and the transformed output. -/
def DebugPipeline.transform (p : DebugPipeline) (times : Nat → Nat) (X : Mat) :
    Except String (List String × Mat) := do
  let (evs, out) ← runSteps times (p.steps.map Prod.snd) 0 X
  Except.ok (evs.dropLast.filterMap p.log_callback.apply, out)

/-- A pipeline of `Adder` steps with the given values and no callback. -/
def adderPipeline (vs : List Int) : DebugPipeline :=
  DebugPipeline.ofSteps (vs.map fun v => (toString v, (Adder.mk v).toStep))

/-- Bit length of a natural number, with structural fuel so that it
reduces by kernel computation; `bitLen 64 n` is exact for `n < 2^64`. -/
def bitLen : Nat → Nat → Nat
  | 0, _ => 0
  | fuel + 1, n => if n = 0 then 0 else bitLen fuel (n / 2) + 1

/-- Round `n` to the nearest multiple of the grid spacing `u`, ties going
to the multiple with an even quotient (IEEE 754 round-to-nearest-even). -/
def roundAt (u n : Nat) : Nat :=
  if 2 * (n % u) < u then n / u * u
  else if u < 2 * (n % u) then (n / u + 1) * u
  else if n / u % 2 = 0 then n / u * u else (n / u + 1) * u

/-- Round a natural number to the nearest IEEE 754 binary64 value (ties to
even): exact below `2^53`, otherwise rounded to the grid of spacing
`2^(bits-53)`.  Faithful for magnitudes below `2^64`. -/
def roundNat (n : Nat) : Nat :=
  if bitLen 64 n ≤ 53 then n else roundAt (2 ^ (bitLen 64 n - 53)) n

/-- Round an integer to the nearest binary64 value (sign-symmetric, as in
IEEE 754 round-to-nearest-even). -/
def roundInt (x : Int) : Int :=
  if x < 0 then -(roundNat x.natAbs) else roundNat x.natAbs

/-- IEEE 754 binary64 addition of two integer-valued doubles: the exact
sum, correctly rounded.  This is the arithmetic numpy's float64 `X + v`
actually performs on the notebook's data. -/
def fladd (a b : Int) : Int := roundInt (a + b)

/-- `Adder.transform` under the program's float64 semantics: elementwise
correctly-rounded addition of the value. -/
def Adder.floatTransform (a : Adder) (X : Mat) : Mat :=
  X.map (List.map (fun x => fladd x a.value))

/-- View an `Adder` as a pipeline `Step` computing with float64 addition. -/
def Adder.toFloatStep (a : Adder) : Step :=
  ⟨a.repr, fun X => Except.ok (a.floatTransform X)⟩

/-- A pipeline of `Adder` steps over float64 arithmetic, no callback. -/
def floatAdderPipeline (vs : List Int) : DebugPipeline :=
  DebugPipeline.ofSteps (vs.map fun v => (toString v, (Adder.mk v).toFloatStep))

/-- Modelled from the spec: column-wise concatenation of two matrices,
as sklearn's `FeatureUnion` performs on member outputs. -/
def hstack (A B : Mat) : Mat := List.zipWith (fun r r' => r ++ r') A B

/-- Run every member pipeline of a feature union on the same input,
collecting each member's (log lines, output) result in order. -/
def collectResults (times : Nat → Nat) (X : Mat) :
    List (String × DebugPipeline) → Except String (List (List String × Mat))
  | [] => Except.ok []
  | m :: ms => do
      let r ← m.2.transform times X
      let rs ← collectResults times X ms
      Except.ok (r :: rs)

/-- Modelled from the spec: sklearn's `FeatureUnion` combinator
(third-party, not in the material) over debug pipelines: runs every member
pipeline on the same input and concatenates their outputs column-wise; the
members' log lines are emitted in order. -/
def featureUnionTransform (members : List (String × DebugPipeline))
    (times : Nat → Nat) (X : Mat) : Except String (List String × Mat) := do
  let rs ← collectResults times X members
  match rs.map Prod.snd with
  | [] => Except.ok (rs.foldl (fun acc r => acc ++ r.1) [], [])
  | M :: Ms => Except.ok (rs.foldl (fun acc r => acc ++ r.1) [], Ms.foldl hstack M)

theorem ok_bind {ε α β : Type} (a : α) (f : α → Except ε β) :
    (Except.ok a >>= f) = f a := rfl

theorem error_bind {ε α β : Type} (e : ε) (f : α → Except ε β) :
    ((Except.error e : Except ε α) >>= f) = Except.error e := rfl

theorem map_snd_cons_bind {ε β β' γ : Type} (x : Except ε (List β × γ))
    (g : List β × γ → List β') :
    Except.map Prod.snd (x >>= fun d => Except.ok (g d, d.2))
      = Except.map Prod.snd x := by
  cases x <;> rfl

theorem chainTransform_nil (X : Mat) : chainTransform [] X = Except.ok X := rfl

theorem chainTransform_cons (s : Step) (ss : List Step) (X : Mat) :
    chainTransform (s :: ss) X = s.transform X >>= fun r => chainTransform ss r := by
  simp [chainTransform, List.foldlM_cons]

theorem chainTransform_append (l l' : List Step) (X : Mat) :
    chainTransform (l ++ l') X = chainTransform l X >>= fun r => chainTransform l' r := by
  simp [chainTransform, List.foldlM_append]

/-- Discarding the recorded events from `runSteps` leaves exactly the
sequential composition of the steps' transforms. -/
theorem runSteps_map_snd (times : Nat → Nat) (ss : List Step) (i : Nat) (X : Mat) :
    (runSteps times ss i X).map Prod.snd = chainTransform ss X := by
  induction ss generalizing i X with
  | nil => rfl
  | cons s rest ih =>
    rw [chainTransform_cons]
    simp only [runSteps]
    cases hs : s.transform X with
    | error e => rfl
    | ok r =>
      rw [ok_bind, ok_bind]
      have hmap := map_snd_cons_bind (runSteps times rest (i + 1) r)
        (fun d => ((r, s), times i) :: d.1)
      exact hmap.trans (ih (i + 1) r)

/-- Characterisation of a successful `runSteps` run: one event per step, and
the `k`-th event carries the output of the first `k+1` steps, the `k`-th
step itself, and the elapsed time of moment `i+k`. -/
theorem runSteps_ok (times : Nat → Nat) (ss : List Step) (i : Nat) (X : Mat)
    (evs : List ((Mat × Step) × Nat)) (out : Mat)
    (h : runSteps times ss i X = Except.ok (evs, out)) :
    evs.length = ss.length ∧
    ∀ k s, ss[k]? = some s →
      ∃ r, chainTransform (List.take (k + 1) ss) X = Except.ok r ∧
        evs[k]? = some ((r, s), times (i + k)) := by
  induction ss generalizing i X evs out with
  | nil =>
    simp only [runSteps, Except.ok.injEq, Prod.mk.injEq] at h
    obtain ⟨h1, h2⟩ := h
    subst h1
    refine ⟨rfl, ?_⟩
    intro k s hk
    simp at hk
  | cons s rest ih =>
    simp only [runSteps] at h
    cases hs : s.transform X with
    | error e => rw [hs, error_bind] at h; simp at h
    | ok r =>
      rw [hs, ok_bind] at h
      cases hr : runSteps times rest (i + 1) r with
      | error e => rw [hr, error_bind] at h; simp at h
      | ok d =>
        obtain ⟨evs', out'⟩ := d
        rw [hr, ok_bind] at h
        simp only [Except.ok.injEq, Prod.mk.injEq] at h
        obtain ⟨h1, h2⟩ := h
        subst h1
        obtain ⟨ihlen, ihidx⟩ := ih (i + 1) r evs' out' hr
        refine ⟨by simp [ihlen], ?_⟩
        intro k s' hk
        cases k with
        | zero =>
          simp only [List.getElem?_cons_zero, Option.some.injEq] at hk
          subst hk
          refine ⟨r, ?_, by simp⟩
          rw [List.take_succ_cons, List.take_zero, chainTransform_cons, hs, ok_bind,
            chainTransform_nil]
        | succ k =>
          rw [List.getElem?_cons_succ] at hk
          obtain ⟨r', hc, he⟩ := ihidx k s' hk
          refine ⟨r', ?_, ?_⟩
          · rw [List.take_succ_cons, chainTransform_cons, hs, ok_bind]
            exact hc
          · rw [List.getElem?_cons_succ, show i + (k + 1) = i + 1 + k by omega]
            exact he

/-- The transformed output of the pipeline is the sequential composition of
its steps' transforms, whatever the callback. -/
theorem transform_map_snd (p : DebugPipeline) (times : Nat → Nat) (X : Mat) :
    Except.map Prod.snd (p.transform times X)
      = chainTransform (p.steps.map Prod.snd) X := by
  rw [← runSteps_map_snd times (p.steps.map Prod.snd) 0 X]
  exact map_snd_cons_bind (runSteps times (p.steps.map Prod.snd) 0 X)
    (fun d => d.1.dropLast.filterMap p.log_callback.apply)

theorem filterMap_eq_map_of_applies {α β : Type} (f : α → Option β) (g : α → β)
    (hf : ∀ a, f a = some (g a)) (l : List α) : l.filterMap f = l.map g := by
  induction l with
  | nil => rfl
  | cons a l ih => rw [List.filterMap_cons, hf a, ih, List.map_cons]

theorem filterMap_eq_nil_of_none {α β : Type} (f : α → Option β)
    (hf : ∀ a, f a = none) (l : List α) : l.filterMap f = [] := by
  induction l with
  | nil => rfl
  | cons a l ih => rw [List.filterMap_cons, hf a, ih]

theorem except_map_eq_error {ε α β : Type} (f : α → β) (x : Except ε α) (e : ε)
    (h : Except.map f x = Except.error e) : x = Except.error e := by
  cases x with
  | error e' => cases h; rfl
  | ok a => exact Except.noConfusion h

/-- If every between-step event makes the callback emit the line `g` of the
event, then exactly N-1 lines are emitted for N steps, and the `k`-th line
is `g` applied to the pair (result of the first `k+1` steps, step `k`) and
the elapsed time of moment `k`. -/
theorem transform_lines_spec (steps : List (String × Step)) (cb : LogCallback)
    (g : (Mat × Step) × Nat → String)
    (hcb : ∀ e, cb.apply e = some (g e))
    (times : Nat → Nat) (X : Mat) (lines : List String) (out : Mat)
    (h : (DebugPipeline.mk steps cb).transform times X = Except.ok (lines, out)) :
    lines.length = steps.length - 1 ∧
    ∀ k, k < lines.length →
      ∃ r s, (steps.map Prod.snd)[k]? = some s ∧
        chainTransform (List.take (k + 1) (steps.map Prod.snd)) X = Except.ok r ∧
        lines[k]? = some (g ((r, s), times k)) := by
  simp only [DebugPipeline.transform] at h
  cases hr : runSteps times (steps.map Prod.snd) 0 X with
  | error e => rw [hr, error_bind] at h; simp at h
  | ok d =>
    obtain ⟨evs, out'⟩ := d
    rw [hr, ok_bind] at h
    simp only [Except.ok.injEq, Prod.mk.injEq] at h
    obtain ⟨h1, h2⟩ := h
    obtain ⟨hlen, hidx⟩ := runSteps_ok times (steps.map Prod.snd) 0 X evs out' hr
    have hmap : evs.dropLast.filterMap cb.apply = evs.dropLast.map g :=
      filterMap_eq_map_of_applies cb.apply g hcb _
    have hlines : lines = evs.dropLast.map g := by rw [← h1, hmap]
    have hlinlen : lines.length = steps.length - 1 := by
      rw [hlines, List.length_map, List.length_dropLast, hlen, List.length_map]
    refine ⟨hlinlen, ?_⟩
    intro k hk
    have hks : k < steps.length - 1 := by rw [← hlinlen]; exact hk
    have hkss : k < (steps.map Prod.snd).length := by
      rw [List.length_map]; omega
    have hsome : (steps.map Prod.snd)[k]? = some (steps.map Prod.snd)[k] :=
      List.getElem?_eq_getElem hkss
    obtain ⟨r, hc, he⟩ := hidx k _ hsome
    refine ⟨r, (steps.map Prod.snd).get ⟨k, hkss⟩, ?_, hc, ?_⟩
    · rw [hsome]; rfl
    · rw [hlines, List.getElem?_map, List.getElem?_dropLast]
      have : k < evs.length - 1 := by rw [hlen, List.length_map]; exact hks
      rw [if_pos this, he]
      simp only [Option.map_some, Nat.zero_add]
      rfl

/-- A chain of `Adder` steps adds the sum of their values to every entry. -/
theorem chain_adders (vs : List Int) (X : Mat) :
    chainTransform ((vs.map fun v => (toString v, (Adder.mk v).toStep)).map Prod.snd) X
      = Except.ok (X.map (List.map (fun x => x + vs.sum))) := by
  induction vs generalizing X with
  | nil => simp [chainTransform_nil]
  | cons v vs ih =>
    simp only [List.map_cons]
    rw [chainTransform_cons]
    have hstep : (Adder.mk v).toStep.transform X = Except.ok ((Adder.mk v).transform X) := rfl
    rw [hstep, ok_bind, ih ((Adder.mk v).transform X)]
    simp only [Adder.transform, List.map_map, List.sum_cons, Except.ok.injEq]
    apply List.map_congr_left
    intro row _
    simp only [Function.comp, List.map_map]
    apply List.map_congr_left
    intro x _
    simp [add_assoc]

theorem bitLen_le (fuel n k : Nat) (hn : n < 2 ^ k) (hk : k ≤ fuel) :
    bitLen fuel n ≤ k := by
  induction fuel generalizing n k with
  | zero => simp [bitLen]
  | succ fuel ih =>
    by_cases h0 : n = 0
    · simp [bitLen, h0]
    · have hk1 : 1 ≤ k := by
        rcases Nat.eq_zero_or_pos k with hk0 | hk0
        · subst hk0
          rw [pow_zero] at hn
          omega
        · exact hk0
      simp only [bitLen, h0, if_false]
      have h2 : (2 : Nat) ^ k = 2 * 2 ^ (k - 1) := by
        conv_lhs => rw [show k = (k - 1) + 1 by omega]
        rw [pow_succ]
        ring
      have hdiv : n / 2 < 2 ^ (k - 1) := by omega
      have := ih (n / 2) (k - 1) hdiv (by omega)
      omega

/-- Below `2^53` (inclusive) every integer is exactly representable in
binary64, so rounding is the identity there. -/
theorem roundNat_eq_of_le (n : Nat) (h : n ≤ 2 ^ 53) : roundNat n = n := by
  rcases Nat.lt_or_ge n (2 ^ 53) with h' | h'
  · have hb : bitLen 64 n ≤ 53 := bitLen_le 64 n 53 h' (by omega)
    rw [roundNat, if_pos hb]
  · have hn : n = 2 ^ 53 := by omega
    subst hn
    decide

/-- Float64 addition agrees with exact integer addition while the sum's
magnitude stays within the exactly-representable range. -/
theorem fladd_eq_add (a b : Int) (h : (a + b).natAbs ≤ 2 ^ 53) :
    fladd a b = a + b := by
  unfold fladd roundInt
  split
  · rw [roundNat_eq_of_le _ h]
    omega
  · rw [roundNat_eq_of_le _ h]
    omega

theorem mat_map_congr (f g : Int → Int) (X : Mat)
    (h : ∀ row ∈ X, ∀ x ∈ row, f x = g x) :
    X.map (List.map f) = X.map (List.map g) := by
  apply List.map_congr_left
  intro row hrow
  apply List.map_congr_left
  intro x hx
  exact h row hrow x hx

/-- A chain of float64 `Adder` steps adds the exact sum of their values to
every entry, as long as every entry keeps all intermediate sums within the
exactly-representable range. -/
theorem chain_float_adders (vs : List Int) (X : Mat)
    (hX : ∀ row ∈ X, ∀ x ∈ row, x.natAbs + (vs.map Int.natAbs).sum ≤ 2 ^ 53) :
    chainTransform ((vs.map fun v => (toString v, (Adder.mk v).toFloatStep)).map Prod.snd) X
      = Except.ok (X.map (List.map (fun x => x + vs.sum))) := by
  induction vs generalizing X with
  | nil => simp [chainTransform_nil]
  | cons v vs ih =>
    simp only [List.map_cons]
    rw [chainTransform_cons]
    have hstep : (Adder.mk v).toFloatStep.transform X
        = Except.ok ((Adder.mk v).floatTransform X) := rfl
    rw [hstep, ok_bind]
    have hexact : (Adder.mk v).floatTransform X = X.map (List.map (fun x => x + v)) := by
      unfold Adder.floatTransform
      apply mat_map_congr
      intro row hrow x hx
      apply fladd_eq_add
      show (x + v).natAbs ≤ 2 ^ 53
      have hb := hX row hrow x hx
      have habs := Int.natAbs_add_le x v
      simp only [List.map_cons, List.sum_cons] at hb
      omega
    rw [hexact]
    have hnew : ∀ row ∈ X.map (List.map (fun x => x + v)), ∀ x ∈ row,
        x.natAbs + (vs.map Int.natAbs).sum ≤ 2 ^ 53 := by
      intro row hrow x hx
      simp only [List.mem_map] at hrow
      obtain ⟨row0, hrow0, rfl⟩ := hrow
      simp only [List.mem_map] at hx
      obtain ⟨x0, hx0, rfl⟩ := hx
      have hb := hX row0 hrow0 x0 hx0
      have habs := Int.natAbs_add_le x0 v
      simp only [List.map_cons, List.sum_cons] at hb
      omega
    rw [ih _ hnew]
    simp only [List.map_map, List.sum_cons, Except.ok.injEq]
    apply List.map_congr_left
    intro row _
    simp only [Function.comp, List.map_map]
    apply List.map_congr_left
    intro x _
    simp [add_assoc]

/-- Claim C1: fit followed by transform gives the same transformed output
whatever the log callback selector is; attaching or detaching a callback
never changes the output. -/
theorem transform_output_independent_of_callback
    (steps : List (String × Step)) (cb cb' : LogCallback) (times : Nat → Nat) (X : Mat) :
    Except.map Prod.snd (((DebugPipeline.mk steps cb).fit X).transform times X)
      = Except.map Prod.snd (((DebugPipeline.mk steps cb').fit X).transform times X) := by
  rw [transform_map_snd, transform_map_snd]
  rfl

/-- Claim C2: with a callback attached, a successful transform invokes the
callback exactly N-1 times for N steps, once per moment between
consecutive steps: invocation k emits line k and receives the output of
the first k+1 steps together with step k, with k+1 < N a strict prefix of
the pipeline — so the final step's output is never passed to the
callback. -/
theorem transform_emits_n_minus_one_lines
    (steps : List (String × Step)) (cb : LogCallback) (times : Nat → Nat) (X : Mat)
    (lines : List String) (out : Mat)
    (hcb : cb ≠ LogCallback.noCallback)
    (h : (DebugPipeline.mk steps cb).transform times X = Except.ok (lines, out)) :
    lines.length = steps.length - 1 ∧
    ∀ k, k < lines.length →
      k + 1 < steps.length ∧
      ∃ r s, (steps.map Prod.snd)[k]? = some s ∧
        chainTransform (List.take (k + 1) (steps.map Prod.snd)) X = Except.ok r ∧
        lines[k]? = cb.apply ((r, s), times k) := by
  cases cb with
  | noCallback => exact absurd rfl hcb
  | defaultCallback =>
    obtain ⟨hlen, hidx⟩ := transform_lines_spec steps LogCallback.defaultCallback
      (fun e => default_log_callback e.1 e.2) (fun _ => rfl) times X lines out h
    refine ⟨hlen, ?_⟩
    intro k hk
    obtain ⟨r, s, h1, h2, h3⟩ := hidx k hk
    exact ⟨by omega, r, s, h1, h2, h3⟩
  | custom f =>
    obtain ⟨hlen, hidx⟩ := transform_lines_spec steps (LogCallback.custom f)
      (fun e => f e.1 e.2) (fun _ => rfl) times X lines out h
    refine ⟨hlen, ?_⟩
    intro k hk
    obtain ⟨r, s, h1, h2, h3⟩ := hidx k hk
    exact ⟨by omega, r, s, h1, h2, h3⟩

theorem transform_emits_n_minus_one_lines_witness :
    (["[Adder(value=1)] shape=(3, 5) time=0s",
      "[Adder(value=10)] shape=(3, 5) time=0s",
      "[Adder(value=100)] shape=(3, 5) time=0s"] : List String).length
      = demoSteps.length - 1 ∧
    ∀ k, k < (["[Adder(value=1)] shape=(3, 5) time=0s",
      "[Adder(value=10)] shape=(3, 5) time=0s",
      "[Adder(value=100)] shape=(3, 5) time=0s"] : List String).length →
      k + 1 < demoSteps.length ∧
      ∃ r s, (demoSteps.map Prod.snd)[k]? = some s ∧
        chainTransform (List.take (k + 1) (demoSteps.map Prod.snd)) (zeros 3 5)
          = Except.ok r ∧
        (["[Adder(value=1)] shape=(3, 5) time=0s",
          "[Adder(value=10)] shape=(3, 5) time=0s",
          "[Adder(value=100)] shape=(3, 5) time=0s"] : List String)[k]?
          = LogCallback.defaultCallback.apply ((r, s), 0) :=
  transform_emits_n_minus_one_lines demoSteps LogCallback.defaultCallback (fun _ => 0)
    (zeros 3 5)
    ["[Adder(value=1)] shape=(3, 5) time=0s",
     "[Adder(value=10)] shape=(3, 5) time=0s",
     "[Adder(value=100)] shape=(3, 5) time=0s"]
    (List.replicate 3 (List.replicate 5 1111))
    (fun hh => LogCallback.noConfusion hh) rfl

/-- Claim C3: the pipeline applies the steps' transforms in listed order,
feeding each output to the next step; the notebook's four Adders on a 3×5
zero matrix give the 3×5 matrix with every entry 1111. -/
theorem transform_applies_steps_in_order :
    (∀ (steps : List (String × Step)) (cb : LogCallback) (times : Nat → Nat) (X : Mat),
      Except.map Prod.snd ((DebugPipeline.mk steps cb).transform times X)
        = chainTransform (steps.map Prod.snd) X) ∧
    (∀ times : Nat → Nat,
      ((DebugPipeline.ofSteps demoSteps).fit (zeros 3 5)).transform times (zeros 3 5)
        = Except.ok ([], List.replicate 3 (List.replicate 5 1111))) :=
  ⟨fun steps cb times X => transform_map_snd ⟨steps, cb⟩ times X, fun _ => rfl⟩

/-- Claim C4: every custom-callback invocation receives the pair
(step output, step reference) as first argument and the scalar elapsed
time of that moment as second argument; the pair destructures into the
intermediate result and the step. -/
theorem custom_callback_receives_pair_and_time
    (steps : List (String × Step)) (f : (Mat × Step) → Nat → String)
    (times : Nat → Nat) (X : Mat) (lines : List String) (out : Mat)
    (h : (DebugPipeline.mk steps (LogCallback.custom f)).transform times X
      = Except.ok (lines, out)) :
    ∀ k, k < lines.length →
      ∃ r s, (steps.map Prod.snd)[k]? = some s ∧
        chainTransform (List.take (k + 1) (steps.map Prod.snd)) X = Except.ok r ∧
        lines[k]? = some (f (r, s) (times k)) :=
  fun k hk => (transform_lines_spec steps (LogCallback.custom f) (fun e => f e.1 e.2)
    (fun _ => rfl) times X lines out h).2 k hk

theorem custom_callback_receives_pair_and_time_witness :
    ∃ r s, (demoSteps.map Prod.snd)[1]? = some s ∧
      chainTransform (List.take 2 (demoSteps.map Prod.snd)) (zeros 3 5) = Except.ok r ∧
      (["[Adder(value=1)] shape=(3, 5) nbytes=120 time=0",
        "[Adder(value=10)] shape=(3, 5) nbytes=120 time=1",
        "[Adder(value=100)] shape=(3, 5) nbytes=120 time=2"] : List String)[1]?
        = some (log_callback (r, s) 1) :=
  custom_callback_receives_pair_and_time demoSteps log_callback (fun k => k) (zeros 3 5)
    ["[Adder(value=1)] shape=(3, 5) nbytes=120 time=0",
     "[Adder(value=10)] shape=(3, 5) nbytes=120 time=1",
     "[Adder(value=100)] shape=(3, 5) nbytes=120 time=2"]
    (List.replicate 3 (List.replicate 5 1111)) rfl 1 (by decide)

/-- Claim C5: the callback is settable after construction; doing so is the
same, for fit and transform (output and log lines alike), as passing it to
the constructor. -/
theorem log_callback_settable_after_construction
    (steps : List (String × Step)) (cb : LogCallback) (times : Nat → Nat) (X : Mat) :
    (DebugPipeline.ofSteps steps).setLogCallback cb = DebugPipeline.mk steps cb ∧
    ((((DebugPipeline.ofSteps steps).setLogCallback cb).fit X).transform times X
      = ((DebugPipeline.mk steps cb).fit X).transform times X) :=
  ⟨rfl, rfl⟩

/-- Claim C6: every default-callback log line consists of the step's display
name, the shape of the intermediate result and the elapsed time, in the
demonstrated format. -/
theorem default_callback_line_format
    (steps : List (String × Step)) (times : Nat → Nat) (X : Mat)
    (lines : List String) (out : Mat)
    (h : (DebugPipeline.mk steps LogCallback.defaultCallback).transform times X
      = Except.ok (lines, out)) :
    ∀ k, k < lines.length →
      ∃ r s, (steps.map Prod.snd)[k]? = some s ∧
        chainTransform (List.take (k + 1) (steps.map Prod.snd)) X = Except.ok r ∧
        lines[k]? = some ("[" ++ s.name ++ "] shape=(" ++ toString (shape r).1 ++ ", "
          ++ toString (shape r).2 ++ ") time=" ++ toString (times k) ++ "s") :=
  fun k hk => (transform_lines_spec steps LogCallback.defaultCallback
    (fun e => default_log_callback e.1 e.2) (fun _ => rfl) times X lines out h).2 k hk

theorem default_callback_line_format_witness :
    ∃ r s, (demoSteps.map Prod.snd)[0]? = some s ∧
      chainTransform (List.take 1 (demoSteps.map Prod.snd)) (zeros 3 5) = Except.ok r ∧
      (["[Adder(value=1)] shape=(3, 5) time=0s",
        "[Adder(value=10)] shape=(3, 5) time=0s",
        "[Adder(value=100)] shape=(3, 5) time=0s"] : List String)[0]?
        = some ("[" ++ s.name ++ "] shape=(" ++ toString (shape r).1 ++ ", "
          ++ toString (shape r).2 ++ ") time=" ++ toString (0 : Nat) ++ "s") :=
  default_callback_line_format demoSteps (fun _ => 0) (zeros 3 5)
    ["[Adder(value=1)] shape=(3, 5) time=0s",
     "[Adder(value=10)] shape=(3, 5) time=0s",
     "[Adder(value=100)] shape=(3, 5) time=0s"]
    (List.replicate 3 (List.replicate 5 1111)) rfl 0 (by decide)

/-- Claim C7: a raising step makes the pipeline's transform raise the very
same error, whatever callback is attached. -/
theorem transform_propagates_step_error
    (pre post : List (String × Step)) (n : String) (s : Step) (cb : LogCallback)
    (times : Nat → Nat) (X X' : Mat) (e : String)
    (hpre : chainTransform (pre.map Prod.snd) X = Except.ok X')
    (hs : s.transform X' = Except.error e) :
    (DebugPipeline.mk (pre ++ (n, s) :: post) cb).transform times X = Except.error e := by
  apply except_map_eq_error Prod.snd
  rw [transform_map_snd]
  simp only [List.map_append, List.map_cons]
  rw [chainTransform_append, hpre, ok_bind, chainTransform_cons]
  show s.transform X' >>= _ = _
  rw [hs, error_bind]

theorem transform_propagates_step_error_witness :
    (DebugPipeline.mk ([("add_1", (Adder.mk 1).toStep)] ++ ("boom", boomStep)
      :: [("add_10", (Adder.mk 10).toStep)]) LogCallback.defaultCallback).transform
      (fun _ => 0) (zeros 2 2)
      = Except.error "boom" :=
  transform_propagates_step_error [("add_1", (Adder.mk 1).toStep)]
    [("add_10", (Adder.mk 10).toStep)] "boom" boomStep LogCallback.defaultCallback
    (fun _ => 0) (zeros 2 2) (List.replicate 2 (List.replicate 2 1)) "boom" rfl rfl

/-- Claim C8: a feature union of debug pipelines runs every member on the
same input and concatenates their outputs column-wise, each member's log
lines still being emitted between its own steps. -/
theorem feature_union_concatenates_outputs
    (nm nm' : String) (p p' : DebugPipeline) (times : Nat → Nat) (X : Mat)
    (l l' : List String) (M M' : Mat)
    (h : p.transform times X = Except.ok (l, M))
    (h' : p'.transform times X = Except.ok (l', M')) :
    featureUnionTransform [(nm, p), (nm', p')] times X
      = Except.ok (l ++ l', hstack M M') := by
  simp [featureUnionTransform, collectResults, h, h', ok_bind]

theorem feature_union_concatenates_outputs_witness :
    featureUnionTransform
      [("pipe_w_default_log_callback", DebugPipeline.mk demoSteps LogCallback.defaultCallback),
       ("pipe_w_custom_log_callback",
        DebugPipeline.mk demoSteps (LogCallback.custom log_callback))]
      (fun _ => 0) (zeros 3 5)
      = Except.ok
          (["[Adder(value=1)] shape=(3, 5) time=0s",
            "[Adder(value=10)] shape=(3, 5) time=0s",
            "[Adder(value=100)] shape=(3, 5) time=0s"] ++
           ["[Adder(value=1)] shape=(3, 5) nbytes=120 time=0",
            "[Adder(value=10)] shape=(3, 5) nbytes=120 time=0",
            "[Adder(value=100)] shape=(3, 5) nbytes=120 time=0"],
           hstack (List.replicate 3 (List.replicate 5 1111))
             (List.replicate 3 (List.replicate 5 1111))) :=
  feature_union_concatenates_outputs "pipe_w_default_log_callback"
    "pipe_w_custom_log_callback"
    (DebugPipeline.mk demoSteps LogCallback.defaultCallback)
    (DebugPipeline.mk demoSteps (LogCallback.custom log_callback))
    (fun _ => 0) (zeros 3 5)
    ["[Adder(value=1)] shape=(3, 5) time=0s",
     "[Adder(value=10)] shape=(3, 5) time=0s",
     "[Adder(value=100)] shape=(3, 5) time=0s"]
    ["[Adder(value=1)] shape=(3, 5) nbytes=120 time=0",
     "[Adder(value=10)] shape=(3, 5) nbytes=120 time=0",
     "[Adder(value=100)] shape=(3, 5) nbytes=120 time=0"]
    (List.replicate 3 (List.replicate 5 1111))
    (List.replicate 3 (List.replicate 5 1111)) rfl rfl

/-- Claim C9: with no callback attached, fit and transform emit zero log
lines and the transformed output is unchanged. -/
theorem no_callback_emits_no_lines
    (steps : List (String × Step)) (cb : LogCallback) (times : Nat → Nat) (X : Mat) :
    ((DebugPipeline.ofSteps steps).fit X).transform times X
      = Except.map (fun M => (([] : List String), M)) (chainTransform (steps.map Prod.snd) X) ∧
    Except.map Prod.snd (((DebugPipeline.ofSteps steps).fit X).transform times X)
      = Except.map Prod.snd (((DebugPipeline.mk steps cb).fit X).transform times X) := by
  constructor
  · simp only [DebugPipeline.fit, DebugPipeline.transform, DebugPipeline.ofSteps]
    rw [← runSteps_map_snd times (steps.map Prod.snd) 0 X]
    cases hr : runSteps times (steps.map Prod.snd) 0 X with
    | error e => rfl
    | ok d =>
      have hnil : d.1.dropLast.filterMap LogCallback.noCallback.apply = [] :=
        filterMap_eq_nil_of_none _ (fun a => rfl) _
      simp only [ok_bind, hnil]
      rfl
  · rw [transform_map_snd, transform_map_snd]
    rfl

/-- Claim C10 counterexample: on the program's float64 arithmetic the
permutation invariance fails at X = [[2^53]]: the order
[Adder(1), Adder(10), Adder(100), Adder(1000)] yields 9007199254742102
while the reversed order yields 9007199254742104, because IEEE 754
addition does not reassociate (2^53 + 1 rounds back to 2^53). -/
theorem adder_pipeline_permutation_counterexample :
    List.Perm [(1 : Int), 10, 100, 1000] [1000, 100, 10, 1] ∧
    Except.map Prod.snd ((floatAdderPipeline [1, 10, 100, 1000]).transform (fun _ => 0)
        [[9007199254740992]])
      = Except.ok [[9007199254742102]] ∧
    Except.map Prod.snd ((floatAdderPipeline [1000, 100, 10, 1]).transform (fun _ => 0)
        [[9007199254740992]])
      = Except.ok [[9007199254742104]] ∧
    (9007199254742102 : Int) ≠ 9007199254742104 :=
  ⟨(List.reverse_perm [(1 : Int), 10, 100, 1000]).symm, by rfl, by rfl, by decide⟩

/-- Claim C10 (amended): Adder.fit returns the transformer unchanged, and
permuting the Adder steps leaves the float64 pipeline's transformed output
unchanged for every input whose entries keep all intermediate sums within
the exactly-representable binary64 integer range — as the notebook's data
do; outside that range the rounding breaks the invariance. -/
theorem adder_pipeline_permutation_invariant
    (vs vs' : List Int) (hperm : vs.Perm vs') (times times' : Nat → Nat) (X : Mat)
    (hX : ∀ row ∈ X, ∀ x ∈ row, x.natAbs + (vs.map Int.natAbs).sum ≤ 2 ^ 53) :
    (∀ (a : Adder) (Y : Mat), a.fit Y = a) ∧
    Except.map Prod.snd ((floatAdderPipeline vs).transform times X)
      = Except.map Prod.snd ((floatAdderPipeline vs').transform times' X) := by
  refine ⟨fun a Y => rfl, ?_⟩
  rw [transform_map_snd, transform_map_snd]
  simp only [floatAdderPipeline, DebugPipeline.ofSteps]
  have hX' : ∀ row ∈ X, ∀ x ∈ row, x.natAbs + (vs'.map Int.natAbs).sum ≤ 2 ^ 53 := by
    intro row hrow x hx
    have hsum : (vs'.map Int.natAbs).sum = (vs.map Int.natAbs).sum :=
      ((hperm.map Int.natAbs).sum_eq).symm
    rw [hsum]
    exact hX row hrow x hx
  rw [chain_float_adders vs X hX, chain_float_adders vs' X hX', hperm.sum_eq]

theorem adder_pipeline_permutation_invariant_witness :
    (∀ (a : Adder) (Y : Mat), a.fit Y = a) ∧
    Except.map Prod.snd
        ((floatAdderPipeline [1, 10, 100, 1000]).transform (fun _ => 0) (zeros 3 5))
      = Except.map Prod.snd
        ((floatAdderPipeline [1000, 100, 10, 1]).transform (fun _ => 0) (zeros 3 5)) :=
  adder_pipeline_permutation_invariant [1, 10, 100, 1000] [1000, 100, 10, 1]
    (List.reverse_perm [1, 10, 100, 1000]).symm (fun _ => 0) (fun _ => 0) (zeros 3 5)
    (by decide)

end SkLego
